import Mathlib

/-!
# Verification of the sales reporting pipeline

A shallow embedding of the transformation core of the repository
(`sales_reporting.py`, together with the discount-normalisation paths of
`data_entry.py`), and proofs of the specification claims about it.

Modelling conventions:
* Python floats are idealised as rational numbers (`ℚ`); IEEE rounding is not
  modelled, matching the exact-decimal language of the specification.
* A missing cell (pandas `NaN` / `None` / `NaT`) is the `blank` constructor of
  the raw-value type, respectively `none` for cleaned columns.
* Python strings are modelled as `List Char`.
* Python `float(s)` is modelled on the fixed-point decimal fragment
  (optional sign, digits, one decimal point).  The exotic forms accepted by
  Python (exponents, `inf`, `nan`, underscore separators) are not produced by
  any cleaning step of this pipeline and are not modelled.
* Exceptions are modelled with `Except`; a function that the source wraps in
  `try/except` has an exception-explicit variant (suffix `E`) used to state
  the "never raises" claims.
-/

set_option maxRecDepth 10000

namespace SalesReport

/-! ## Basic character and string helpers -/

/-- The ten ASCII digit characters, the exact alphabet accepted by the
fixed-point fragment of Python `float` and by `int`. -/
def DIGITS : List Char := ['0', '1', '2', '3', '4', '5', '6', '7', '8', '9']

/-- Is `c` an ASCII digit? -/
def isDigitCh (c : Char) : Bool := decide (c ∈ DIGITS)

/-- Numeric value of a digit character. -/
def charVal (c : Char) : Nat := c.toNat - 48

/-- Python whitespace stripped by `str.strip()`. -/
def isPySpace (c : Char) : Bool :=
  c = ' ' || c = '\t' || c = '\n' || c = '\r' || c = '\x0b' || c = '\x0c'

/-- Model of `str.replace(x, "")` for a single character `x`. -/
def removeChar (x : Char) (s : List Char) : List Char :=
  s.filter (fun c => decide (c ≠ x))

/-- Model of `str.replace("TL", "")`: left-to-right removal of
non-overlapping occurrences of the two-character substring. -/
def removeTL : List Char → List Char
  | [] => []
  | [c] => [c]
  | c1 :: c2 :: rest =>
    if c1 = 'T' ∧ c2 = 'L' then removeTL rest
    else c1 :: removeTL (c2 :: rest)

/-- Model of `str.strip()`. -/
def pyStrip (s : List Char) : List Char :=
  ((s.dropWhile isPySpace).reverse.dropWhile isPySpace).reverse

/-- Model of `str.lower()` (ASCII fragment, enough for the token sets used). -/
def pyLower (s : List Char) : List Char := s.map Char.toLower

/-- Model of `str.upper()` (ASCII fragment). -/
def pyUpper (s : List Char) : List Char := s.map Char.toUpper

/-- Value of a digit string, most significant digit first. -/
def digitsToNat (s : List Char) : Nat :=
  s.foldl (fun a c => 10 * a + charVal c) 0

/-- Does the string consist of digits only? -/
def allDigits (s : List Char) : Bool := s.all isDigitCh

/-- The digit character of `n < 10`. -/
def digitChar : Nat → Char
  | 0 => '0' | 1 => '1' | 2 => '2' | 3 => '3' | 4 => '4'
  | 5 => '5' | 6 => '6' | 7 => '7' | 8 => '8' | _ => '9'

/-- Decimal representation, fuel-driven so that it evaluates structurally
(the fuel strictly dominates the number of digits). -/
def natReprAux : Nat → Nat → List Char
  | 0, _ => []
  | fuel + 1, n =>
    if n < 10 then [digitChar n]
    else natReprAux fuel (n / 10) ++ [digitChar (n % 10)]

/-- Decimal representation of a natural number, as produced by Python
`str(int)` for non-negative values. -/
def natRepr (n : Nat) : List Char := natReprAux (n + 1) n

/-- Decimal representation of an integer, as produced by Python `str(int)`. -/
def intRepr (i : Int) : List Char :=
  if i < 0 then '-' :: natRepr i.natAbs else natRepr i.natAbs

/-- Model of Python `int(string)` as used on the year field of a
`MonthYear` label (a plain run of digits produced by the label construction;
an empty or non-digit string raises, modelled by `none`). -/
def parseNat (s : List Char) : Option Nat :=
  if s ≠ [] ∧ allDigits s then some (digitsToNat s) else none

/-- Core of the model of Python `float(string)` (fixed-point decimal
fragment, no sign): digits, optionally followed by a decimal point and more
digits, at least one digit overall. -/
def pyFloatCore (cs : List Char) : Option ℚ :=
  let ip := cs.takeWhile isDigitCh
  match cs.dropWhile isDigitCh with
  | [] => if ip = [] then none else some (digitsToNat ip)
  | c :: rest2 =>
    if c = '.' then
      let fp := rest2.takeWhile isDigitCh
      if rest2.dropWhile isDigitCh = [] ∧ ¬(ip = [] ∧ fp = []) then
        some ((digitsToNat ip : ℚ) + (digitsToNat fp : ℚ) / 10 ^ fp.length)
      else none
    else none

/-- Model of Python `float(string)` on the fixed-point decimal fragment:
optional sign, then `pyFloatCore`.  Failure (Python `ValueError`) is `none`. -/
def pyFloat (cs : List Char) : Option ℚ :=
  match cs with
  | [] => none
  | c :: rest =>
    if c = '-' then (pyFloatCore rest).map (fun q => -q)
    else if c = '+' then pyFloatCore rest
    else pyFloatCore (c :: rest)

/-! ## Python cell values -/

/-- A calendar date; the time of day of a parsed timestamp is discarded by
the pipeline, so it is not modelled. -/
structure Date where
  year : Nat
  month : Nat
  day : Nat
deriving DecidableEq, Inhabited

/-- A raw spreadsheet cell value as seen by the Python code: missing
(`NaN` / `None` / `NaT`), a boolean, an integer, a float, a datetime, or a
string. -/
inductive PyVal where
  | blank
  | bool (b : Bool)
  | int (i : Int)
  | float (q : ℚ)
  | date (d : Date)
  | str (s : List Char)
deriving DecidableEq, Inhabited

/-- Two-digit zero-padded field of a timestamp rendering. -/
def pad2 (n : Nat) : List Char :=
  if n < 10 then '0' :: natRepr n else natRepr n

/-- Model of Python `str(value)`.  The float case is a stand-in decimal-style
rendering (numerator, a dot, denominator): the pipeline only ever tests such
strings for membership in token sets or parses them as dates/floats, and like
every real rendering of a Python float it contains a dot, so it can satisfy
neither test. -/
def pyStr : PyVal → List Char
  | .blank => "nan".data
  | .bool b => if b then "True".data else "False".data
  | .int i => intRepr i
  | .float q => intRepr q.num ++ ('.' :: natRepr q.den)
  | .date d =>
    natRepr d.year ++ ('-' :: pad2 d.month) ++ ('-' :: pad2 d.day) ++ " 00:00:00".data
  | .str s => s

/-- A Python exception kind relevant to the normalizers. -/
inductive PyExc where
  | valueError
  | typeError
deriving DecidableEq

/-! ## Date normalizer (`parse_turkish_date`) -/

/-- Is `y` a Gregorian leap year? -/
def isLeapYear (y : Nat) : Bool :=
  decide ((y % 4 = 0 ∧ y % 100 ≠ 0) ∨ y % 400 = 0)

/-- Number of days of month `m` of year `y`. -/
def daysInMonth (y m : Nat) : Nat :=
  if m = 2 then (if isLeapYear y then 29 else 28)
  else if m = 4 ∨ m = 6 ∨ m = 9 ∨ m = 11 then 30
  else 31

/-- Construct a date, validating the ranges the way `datetime.strptime`
does (month 1–12, day valid for the month, year 1–9999). -/
def mkValidDate (y m d : Nat) : Option Date :=
  if 1 ≤ y ∧ y ≤ 9999 ∧ 1 ≤ m ∧ m ≤ 12 ∧ 1 ≤ d ∧ d ≤ daysInMonth y m then
    some ⟨y, m, d⟩
  else none

/-- Split a string at every occurrence of `sep`, like Python `str.split(sep)`. -/
def splitSep (sep : Char) : List Char → List (List Char)
  | [] => [[]]
  | c :: rest =>
    let r := splitSep sep rest
    if c = sep then [] :: r
    else
      match r with
      | [] => [[c]]
      | h :: t => (c :: h) :: t

/-- A numeric strptime field: non-empty, all digits, at most `maxLen` digits. -/
def fieldNat (maxLen : Nat) (s : List Char) : Option Nat :=
  if s ≠ [] ∧ s.length ≤ maxLen ∧ allDigits s then some (digitsToNat s) else none

/-- Model of `datetime.strptime(s, "%d<sep>%m<sep>%Y")`. -/
def strptimeDMY (sep : Char) (s : List Char) : Option Date :=
  match splitSep sep s with
  | [ds, ms, ys] => do
    let d ← fieldNat 2 ds
    let m ← fieldNat 2 ms
    let y ← fieldNat 4 ys
    mkValidDate y m d
  | _ => none

/-- Model of `datetime.strptime(s, "%Y-%m-%d")`. -/
def strptimeYMD (s : List Char) : Option Date :=
  match splitSep '-' s with
  | [ys, ms, ds] => do
    let y ← fieldNat 4 ys
    let m ← fieldNat 2 ms
    let d ← fieldNat 2 ds
    mkValidDate y m d
  | _ => none

/-- The four date formats tried in order by `parse_turkish_date`:
`"%d.%m.%Y"`, `"%d-%m-%Y"`, `"%Y-%m-%d"`, `"%d/%m/%Y"`. -/
inductive DateFmt where
  | dmyDot
  | dmyDash
  | ymdDash
  | dmySlash
deriving DecidableEq

/-- Dispatch one strptime format. -/
def strptime (fmt : DateFmt) (s : List Char) : Option Date :=
  match fmt with
  | .dmyDot => strptimeDMY '.' s
  | .dmyDash => strptimeDMY '-' s
  | .ymdDash => strptimeYMD s
  | .dmySlash => strptimeDMY '/' s

/-- The ordered format list of the source. -/
def DATE_FORMATS : List DateFmt := [.dmyDot, .dmyDash, .ymdDash, .dmySlash]

/-- First format of the list that parses, like the source's for-loop in which
each `strptime` failure (`ValueError`) is caught and the loop continues. -/
def tryFormats : List DateFmt → List Char → Option Date
  | [], _ => none
  | f :: fs, s =>
    match strptime f s with
    | some d => some d
    | none => tryFormats fs s

/-- Modelled fallback for `pd.to_datetime(s, dayfirst=True, errors="coerce")`:
simplified to retrying the explicit format list (the claim-relevant behaviour
is only that an unparseable string coerces to the missing sentinel rather
than raising). -/
def lenient_dayfirst (s : List Char) : Option Date :=
  tryFormats DATE_FORMATS s

/-- `parse_turkish_date`: the date normalizer.  Missing or empty yields the
missing sentinel, a native datetime passes through (time of day dropped),
a string is tried against the ordered format list and then the lenient
day-first parse; total failure yields the missing sentinel. -/
def parse_turkish_date (v : PyVal) : Option Date :=
  match v with
  | .blank => none
  | .str [] => none
  | .date d => some d
  | v =>
    let s := pyStrip (pyStr v)
    match tryFormats DATE_FORMATS s with
    | some d => some d
    | none => lenient_dayfirst s

/-- `strptime` with its Python exception explicit. -/
def strptimeE (fmt : DateFmt) (s : List Char) : Except PyExc Date :=
  match strptime fmt s with
  | some d => .ok d
  | none => .error .valueError

/-- The source's format loop with exceptions explicit: `except ValueError`
continues with the next format; any other exception would propagate. -/
def tryFormatsE : List DateFmt → List Char → Except PyExc (Option Date)
  | [], _ => .ok none
  | f :: fs, s =>
    match strptimeE f s with
    | .ok d => .ok (some d)
    | .error .valueError => tryFormatsE fs s
    | .error e => .error e

/-- `parse_turkish_date` with exceptions explicit.  The final fallback call
uses `errors="coerce"`, which returns the sentinel instead of raising. -/
def parse_turkish_dateE (v : PyVal) : Except PyExc (Option Date) :=
  match v with
  | .blank => .ok none
  | .str [] => .ok none
  | .date d => .ok (some d)
  | v =>
    let s := pyStrip (pyStr v)
    match tryFormatsE DATE_FORMATS s with
    | .ok (some d) => .ok (some d)
    | .ok none => .ok (lenient_dayfirst s)
    | .error e => .error e

/-! ## Currency, percentage and boolean normalizers -/

/-- The string cleaning of `clean_currency_value`: strip the currency
symbols `€` and `TL`, remove spaces, remove thousands dots, and turn the
decimal comma into a dot. -/
def currencyClean (s : List Char) : List Char :=
  let s1 := removeChar '€' s
  let s2 := removeTL s1
  let s3 := removeChar ' ' s2
  let s4 := removeChar '.' s3
  s4.map (fun c => if c = ',' then '.' else c)

/-- `clean_currency_value`: missing or empty is the missing sentinel, a
numeric value passes through as a float (Python counts booleans as ints),
a string is cleaned and parsed; an unparseable string is the sentinel. -/
def clean_currency_value (v : PyVal) : Option ℚ :=
  match v with
  | .blank => none
  | .str [] => none
  | .bool b => some (if b then 1 else 0)
  | .int i => some (i : ℚ)
  | .float q => some q
  | v => pyFloat (currencyClean (pyStr v))

/-- Python `float(string)` with its `ValueError` explicit. -/
def floatE (s : List Char) : Except PyExc ℚ :=
  match pyFloat s with
  | some q => .ok q
  | none => .error .valueError

/-- `clean_currency_value` with exceptions explicit: the source wraps the
final `float` call in `try/except ValueError: return None`. -/
def clean_currency_valueE (v : PyVal) : Except PyExc (Option ℚ) :=
  match v with
  | .blank => .ok none
  | .str [] => .ok none
  | .bool b => .ok (some (if b then 1 else 0))
  | .int i => .ok (some (i : ℚ))
  | .float q => .ok (some q)
  | v =>
    match floatE (currencyClean (pyStr v)) with
    | .ok q => .ok (some q)
    | .error .valueError => .ok none
    | .error e => .error e

/-- The string cleaning of `clean_percentage_value`: strip surrounding
whitespace, remove percent signs, remove thousands dots, and turn the
decimal comma into a dot. -/
def percentClean (s : List Char) : List Char :=
  let s1 := removeChar '%' (pyStrip s)
  let s2 := removeChar '.' s1
  s2.map (fun c => if c = ',' then '.' else c)

/-- `clean_percentage_value`: a parsed value above 1 is read as a whole
percentage and divided by 100, a value at most 1 is already a fraction and
passes through. -/
def clean_percentage_value (v : PyVal) : Option ℚ :=
  match v with
  | .blank => none
  | .str [] => none
  | .bool b => some (if b then 1 else 0)
  | .int i => some (if 1 < i then (i : ℚ) / 100 else (i : ℚ))
  | .float q => some (if 1 < q then q / 100 else q)
  | v =>
    match pyFloat (percentClean (pyStr v)) with
    | some n => some (if 1 < n then n / 100 else n)
    | none => none

/-- The affirmative token set of `normalise_boolean`. -/
def AFFIRMATIVES : List (List Char) :=
  ["yes".data, "evet".data, "true".data, "1".data, "y".data, "invoiced".data]

/-- `normalise_boolean`: a native boolean passes through, missing is false,
anything else is stringified, trimmed, lowercased and looked up in the
affirmative token set. -/
def normalise_boolean (v : PyVal) : Bool :=
  match v with
  | .bool b => b
  | .blank => false
  | v => decide (pyLower (pyStrip (pyStr v)) ∈ AFFIRMATIVES)

/-- The Turkish month-name table. -/
def TURKISH_MONTHS (n : Nat) : Option (List Char) :=
  if n = 1 then some "Ocak".data
  else if n = 2 then some "Şubat".data
  else if n = 3 then some "Mart".data
  else if n = 4 then some "Nisan".data
  else if n = 5 then some "Mayıs".data
  else if n = 6 then some "Haziran".data
  else if n = 7 then some "Temmuz".data
  else if n = 8 then some "Ağustos".data
  else if n = 9 then some "Eylül".data
  else if n = 10 then some "Ekim".data
  else if n = 11 then some "Kasım".data
  else if n = 12 then some "Aralık".data
  else none

/-! ## Data loader / validator (`read_and_clean_data`) -/

/-- The fixed required-column list of the source. -/
def REQUIRED_COLUMNS : List String :=
  ["Date of Request", "Date of Issue", "Date of Delivery", "Sales Man",
   "Customer Name", "Customer DO No", "Definition", "Sales Ticket Reference",
   "SO No", "PO No", "Amount", "Total Discount", "CPI", "CPS", "QI Forecast",
   "Delivery Note", "Invoiced", "Invoiced Amount"]

/-- A raw input row.  The free-text reference columns are not read by the
pipeline and are not modelled; the header list of the table is what the
validator checks. -/
structure RawRow where
  dateOfRequest : PyVal
  dateOfIssue : PyVal
  dateOfDelivery : PyVal
  salesMan : PyVal
  amount : PyVal
  totalDiscount : PyVal
  cpi : PyVal
  cps : PyVal
  qiForecast : PyVal
  invoiced : PyVal
  invoicedAmount : PyVal
deriving DecidableEq, Inhabited

/-- The parsed source spreadsheet: its header row and its data rows. -/
structure SourceTable where
  header : List String
  rows : List RawRow
deriving DecidableEq, Inhabited

/-- The required columns absent from the header, in required-column order. -/
def missing_columns (header : List String) : List String :=
  REQUIRED_COLUMNS.filter (fun c => decide (c ∉ header))

/-- A normalized row, including the derived calendar attributes.  The
salesperson column is not touched by the loader, so it stays a raw cell
value (missing is `blank`). -/
structure CleanRow where
  dateOfRequest : Option Date
  dateOfIssue : Option Date
  dateOfDelivery : Option Date
  salesMan : PyVal
  amount : Option ℚ
  totalDiscount : Option ℚ
  cpi : Option ℚ
  cps : Option ℚ
  invoicedAmount : Option ℚ
  qiForecast : List Char
  invoiced : Bool
  year : Option Nat
  monthNumber : Option Nat
  monthName : Option (List Char)
  monthYear : Option (List Char)
deriving DecidableEq, Inhabited

/-- The `MonthYear` display label: `"<year> <localized month name>"`. -/
def mkMonthYear (y : Nat) (mname : List Char) : List Char :=
  natRepr y ++ (' ' :: mname)

/-- Column-wise normalization of one row, and derivation of
Year / MonthNumber / MonthName / MonthYear from the issue date. -/
def cleanRow (r : RawRow) : CleanRow :=
  let issue := parse_turkish_date r.dateOfIssue
  let year := issue.map Date.year
  let mnum := issue.map Date.month
  let mname := mnum.bind TURKISH_MONTHS
  { dateOfRequest := parse_turkish_date r.dateOfRequest
    dateOfIssue := issue
    dateOfDelivery := parse_turkish_date r.dateOfDelivery
    salesMan := r.salesMan
    amount := clean_currency_value r.amount
    totalDiscount := clean_currency_value r.totalDiscount
    cpi := clean_currency_value r.cpi
    cps := clean_currency_value r.cps
    invoicedAmount := clean_currency_value r.invoicedAmount
    qiForecast := pyUpper (pyStrip (pyStr r.qiForecast))
    invoiced := normalise_boolean r.invoiced
    year := year
    monthNumber := mnum
    monthName := mname
    monthYear :=
      match year, mname with
      | some y, some nm => some (mkMonthYear y nm)
      | _, _ => none }

/-- The error kinds of the pipeline (spec section 7). -/
inductive ReportError where
  | notFound
  | readFailure
  | validation (missing : List String) (msg : List Char)
  | unexpected
deriving DecidableEq

/-- The fixed prefix of the validation error message. -/
def VALIDATION_PREFIX : List Char := "Eksik sütunlar tespit edildi: ".data

/-- Model of `", ".join(names)`. -/
def joinComma : List String → List Char
  | [] => []
  | [c] => c.data
  | c :: rest => c.data ++ (", ".data ++ joinComma rest)

/-- `read_and_clean_data`: validate that every required column is present
(failing with a message that enumerates every missing column), then apply
the normalizers column-wise.  File-existence and parse failures happen
before this model's input exists and are represented by the other error
constructors. -/
def read_and_clean_data (t : SourceTable) : Except ReportError (List CleanRow) :=
  let missing := missing_columns t.header
  if missing ≠ [] then
    .error (.validation missing (VALIDATION_PREFIX ++ joinComma missing))
  else
    .ok (t.rows.map cleanRow)

/-! ## Aggregation engine -/

/-- Sum of an optional-value column, skipping missing entries the way the
pandas `sum` aggregations do (`skipna`; an all-missing group sums to 0). -/
def qsumOpt (l : List (Option ℚ)) : ℚ := (l.filterMap id).sum

/-- The grouping key of the monthly aggregation:
(Year, MonthNumber, MonthName, MonthYear).  A row in which any key part is
missing is dropped by the grouping. -/
def monthGroupKey (r : CleanRow) : Option (Nat × Nat × List Char × List Char) :=
  match r.year, r.monthNumber, r.monthName, r.monthYear with
  | some y, some mn, some nm, some my => some (y, mn, nm, my)
  | _, _, _, _ => none

/-- Chronological comparison of month keys: by Year, then MonthNumber. -/
def monthKeyLE (a b : Nat × Nat × List Char × List Char) : Prop :=
  a.1 < b.1 ∨ (a.1 = b.1 ∧ a.2.1 ≤ b.2.1)

instance : DecidableRel monthKeyLE := fun a b => by
  unfold monthKeyLE; infer_instance

instance : IsTotal (Nat × Nat × List Char × List Char) monthKeyLE where
  total a b := by unfold monthKeyLE; omega

instance : IsTrans (Nat × Nat × List Char × List Char) monthKeyLE where
  trans a b c hab hbc := by unfold monthKeyLE at *; omega

/-- `filter_monthly_data`: drop rows without a usable month, group by
(Year, MonthNumber, MonthName, MonthYear), sum the value column, and sort
ascending by (Year, MonthNumber). -/
def filter_monthly_data (rows : List CleanRow) (val : CleanRow → Option ℚ) :
    List ((Nat × Nat × List Char × List Char) × ℚ) :=
  let keys := (rows.filterMap monthGroupKey).dedup
  (List.insertionSort monthKeyLE keys).map (fun k =>
    (k, qsumOpt ((rows.filter (fun r => decide (monthGroupKey r = some k))).map val)))

/-- `_month_year_sort_key`: split the label at its first space, parse the
year part with `int`, and look the month name up in the Turkish month table
(an unknown name maps to 0).  A label without a space or with a non-numeric
year part makes the source raise; that is the `none` result. -/
def month_year_sort_key (label : List Char) : Option (Nat × Nat) :=
  let ys := label.takeWhile (fun c => decide (c ≠ ' '))
  match label.dropWhile (fun c => decide (c ≠ ' ')) with
  | [] => none
  | _ :: mname =>
    match parseNat ys with
    | some y =>
      some (y, (((List.range' 1 12).filter
        (fun k => decide (TURKISH_MONTHS k = some mname))).headD 0))
    | none => none

/-- Labels paired with their sort keys; `none` when any label is malformed
(the source would raise inside `sort_index`). -/
def keyedLabels : List (List Char) → Option (List (List Char × Nat × Nat))
  | [] => some []
  | l :: ls =>
    match month_year_sort_key l, keyedLabels ls with
    | some k, some rest => some ((l, k) :: rest)
    | _, _ => none

/-- Comparison of keyed labels by their (year, month) keys. -/
def keyPairLE (a b : List Char × Nat × Nat) : Prop :=
  a.2.1 < b.2.1 ∨ (a.2.1 = b.2.1 ∧ a.2.2 ≤ b.2.2)

instance : DecidableRel keyPairLE := fun a b => by
  unfold keyPairLE; infer_instance

instance : IsTotal (List Char × Nat × Nat) keyPairLE where
  total a b := by unfold keyPairLE; omega

instance : IsTrans (List Char × Nat × Nat) keyPairLE where
  trans a b c hab hbc := by unfold keyPairLE at *; omega

/-- The month×salesperson pivot: row labels (MonthYear), column labels
(salespeople) and the matrix of summed cells, rows in label order. -/
structure PivotTable where
  salesmen : List PyVal
  rows : List (List Char × List ℚ)
deriving DecidableEq, Inhabited

/-- `pivot_salesman_monthly`: cross-tabulate MonthYear against salesperson
summing the value column.  Rows with a missing MonthYear are dropped
(`dropna`), rows with a missing salesperson are dropped by the pivot's
grouping, an absent (month, salesperson) combination gets the fill value
0.0, missing cell values are skipped by the sums, and the pivot rows are
sorted by the recovered (year, month) key.  (The display order of the
column labels is not modelled; no claim depends on it.) -/
def pivot_salesman_monthly (df : List CleanRow) (val : CleanRow → Option ℚ) :
    Option PivotTable :=
  let kept := df.filter (fun r => decide (r.monthYear ≠ none ∧ r.salesMan ≠ .blank))
  let labels := (kept.filterMap (fun r => r.monthYear)).dedup
  let salesmen := (kept.map (fun r => r.salesMan)).dedup
  match keyedLabels labels with
  | none => none
  | some keyed =>
    some
      { salesmen := salesmen
        rows := ((List.insertionSort keyPairLE keyed).map Prod.fst).map (fun m =>
          (m, salesmen.map (fun s =>
            qsumOpt ((kept.filter (fun r =>
              decide (r.monthYear = some m ∧ r.salesMan = s))).map val)))) }

/-- Find the cell row of a pivot by its MonthYear label. -/
def rowFind (rows : List (List Char × List ℚ)) (m : List Char) : Option (List ℚ) :=
  (rows.find? (fun r => decide (r.1 = m))).map Prod.snd

/-- Look a value up by position in parallel label/cell lists. -/
def zipFind : List PyVal → List ℚ → PyVal → Option ℚ
  | [], _, _ => none
  | _, [], _ => none
  | l :: ls, q :: qs, s => if l = s then some q else zipFind ls qs s

/-- The cell of pivot `p` at month label `m` and salesperson `s`. -/
def PivotTable.cell (p : PivotTable) (m : List Char) (s : PyVal) : Option ℚ :=
  (rowFind p.rows m).bind (fun cells => zipFind p.salesmen cells s)

/-- Descending order on salesperson totals. -/
def salesTotalGE (a b : PyVal × ℚ) : Prop := b.2 ≤ a.2

instance : DecidableRel salesTotalGE := fun a b => by
  unfold salesTotalGE; infer_instance

instance : IsTotal (PyVal × ℚ) salesTotalGE where
  total a b := le_total b.2 a.2

instance : IsTrans (PyVal × ℚ) salesTotalGE where
  trans _ _ _ hab hbc := le_trans hbc hab

/-- `salesperson_totals`: group by salesperson (missing keys dropped), sum
the value column, sort descending by the summed value.  The source requests
the pandas default (unstable) sort; the model uses an insertion sort, whose
tie order is therefore not part of any proved claim. -/
def salesperson_totals (df : List CleanRow) (val : CleanRow → Option ℚ) :
    List (PyVal × ℚ) :=
  let kept := df.filter (fun r => decide (r.salesMan ≠ .blank))
  let names := (kept.map (fun r => r.salesMan)).dedup
  List.insertionSort salesTotalGE
    (names.map (fun s =>
      (s, qsumOpt ((kept.filter (fun r => decide (r.salesMan = s))).map val))))

/-! ## Orchestrator (`generate_sales_report`) -/

/-- The computed content of the output workbook: the normalized row table
(the Detail Data sheet), the summary metrics table, and the aggregate tables
of the three segment sheets.  Styling and chart placement carry no data and
are not modelled. -/
structure ReportOutput where
  df : List CleanRow
  summary : List (List Char × ℚ)
  invoicedMonthly : List ((Nat × Nat × List Char × List Char) × ℚ)
  notInvoicedMonthly : List ((Nat × Nat × List Char × List Char) × ℚ)
  wonMonthly : List ((Nat × Nat × List Char × List Char) × ℚ)
  invoicedPivot : PivotTable
  notInvoicedPivot : PivotTable
  wonPivot : PivotTable
  salespersonSummary : List (PyVal × ℚ)
  invoicedSalesperson : List (PyVal × ℚ)
  notInvoicedSalesperson : List (PyVal × ℚ)
  wonSalesperson : List (PyVal × ℚ)
deriving DecidableEq, Inhabited

/-- The CPI value column. -/
def cpiCol (r : CleanRow) : Option ℚ := r.cpi

/-- `generate_sales_report`: load and validate (propagating any failure
before anything is written), slice the row subsets, compute every aggregate
and the summary metrics, and assemble the output.  A malformed month label
would make the source raise inside the pivot sort; that is the
`unexpected` error. -/
def generate_sales_report (t : SourceTable) : Except ReportError ReportOutput := do
  let df ← read_and_clean_data t
  let invoiced_df := df.filter (fun r => r.invoiced)
  let not_invoiced_df := df.filter (fun r => !r.invoiced)
  let won_df := df.filter (fun r => decide (pyUpper r.qiForecast = "YES".data))
  match pivot_salesman_monthly invoiced_df cpiCol,
      pivot_salesman_monthly not_invoiced_df cpiCol,
      pivot_salesman_monthly won_df cpiCol with
  | some invoicedPivot, some notInvoicedPivot, some wonPivot =>
    let totalCPI := qsumOpt (df.map cpiCol)
    let invoicedCPI := qsumOpt (invoiced_df.map cpiCol)
    let notInvoicedCPI := qsumOpt (not_invoiced_df.map cpiCol)
    let wonCPI := qsumOpt (won_df.map cpiCol)
    let salesmanCount :=
      ((df.filter (fun r => decide (r.salesMan ≠ .blank))).map
        (fun r => r.salesMan)).dedup.length
    let monthCount := (df.filterMap (fun r => r.monthYear)).dedup.length
    let avgCPI := if monthCount ≠ 0 then totalCPI / (monthCount : ℚ) else 0
    .ok
      { df := df
        summary :=
          [("Toplam CPI".data, totalCPI),
           ("Faturalanan CPI".data, invoicedCPI),
           ("Faturalanmayan CPI".data, notInvoicedCPI),
           ("Kazanılan CPI".data, wonCPI),
           ("Satış Elemanı Sayısı".data, (salesmanCount : ℚ)),
           ("Aylık Ortalama CPI".data, avgCPI)]
        invoicedMonthly := filter_monthly_data invoiced_df cpiCol
        notInvoicedMonthly := filter_monthly_data not_invoiced_df cpiCol
        wonMonthly := filter_monthly_data won_df cpiCol
        invoicedPivot := invoicedPivot
        notInvoicedPivot := notInvoicedPivot
        wonPivot := wonPivot
        salespersonSummary := salesperson_totals df cpiCol
        invoicedSalesperson := salesperson_totals invoiced_df cpiCol
        notInvoicedSalesperson := salesperson_totals not_invoiced_df cpiCol
        wonSalesperson := salesperson_totals won_df cpiCol }
  | _, _, _ => .error .unexpected

/-! ## Discount normalization of the data-entry application -/

/-- `_parse_float` of the data-entry module: strip the euro sign, every
space and the percent sign, remove thousands dots, decimal comma to dot,
then `float`; an empty or unparseable string is `None`. -/
def parse_float (s : List Char) : Option ℚ :=
  if s = [] then none
  else
    pyFloat ((removeChar '.' (removeChar '%' (removeChar ' '
      (removeChar '€' s)))).map (fun c => if c = ',' then '.' else c))

/-- `_to_float` of the data-entry module: missing is `None`, numeric values
(booleans included, as in Python) pass through, strings go through
`_parse_float`. -/
def to_float (v : PyVal) : Option ℚ :=
  match v with
  | .blank => none
  | .str [] => none
  | .bool b => some (if b then 1 else 0)
  | .int i => some (i : ℚ)
  | .float q => some q
  | v => parse_float (pyStr v)

/-- One row of `_normalise_discount_values`: a parseable raw discount above
1 is turned into a fraction of the row's amount (or of 100 when the amount
is missing or zero), then the fraction is clamped into [0, 1] and written
back when it differs from the raw value. -/
def normalise_discount_cell (rawCell amountCell : PyVal) : PyVal :=
  match to_float rawCell with
  | none => rawCell
  | some raw =>
    let fraction :=
      if 1 < raw then
        match to_float amountCell with
        | some a => if a ≠ 0 then raw / a else raw / 100
        | none => raw / 100
      else raw
    let fraction := max 0 (min fraction 1)
    if raw ≠ fraction then .float fraction else rawCell

/-- The discount computation of `_collect_form_data`: a negative percentage
or one above 100 is a form error (no value is produced); otherwise the
fraction percentage/100 is clamped into [0, 1]. -/
def collect_form_discount (p : ℚ) : Option ℚ :=
  if p < 0 then none
  else if 1 < p / 100 then none
  else some (max 0 (min (p / 100) 1))

/-! ## Claim-facing predicates and concrete fixtures -/

/-- Chronological comparison of two month labels through their recovered
(year, month) sort keys. -/
def labelKeyLE (a b : List Char) : Prop :=
  ∀ ka kb, month_year_sort_key a = some ka → month_year_sort_key b = some kb →
    ka.1 < kb.1 ∨ (ka.1 = kb.1 ∧ ka.2 ≤ kb.2)

/-- The additivity relation of the first three summary metrics: the first
value equals the sum of the second and the third. -/
def summaryHeadRel (l : List (List Char × ℚ)) : Prop :=
  match l with
  | (_, q1) :: (_, q2) :: (_, q3) :: _ => q1 = q2 + q3
  | _ => False

/-- A self-consistent normalized fixture row. -/
def sampleRow (sm : PyVal) (y mn : Nat) (q : ℚ) (inv : Bool) (fc : List Char) :
    CleanRow :=
  { dateOfRequest := none
    dateOfIssue := some ⟨y, mn, 1⟩
    dateOfDelivery := none
    salesMan := sm
    amount := some q
    totalDiscount := none
    cpi := some q
    cps := none
    invoicedAmount := none
    qiForecast := fc
    invoiced := inv
    year := some y
    monthNumber := some mn
    monthName := TURKISH_MONTHS mn
    monthYear := (TURKISH_MONTHS mn).map (fun nm => mkMonthYear y nm) }

/-- Two-row fixture spanning a year boundary (December 2024, January 2025)
with two distinct salespeople. -/
def fixRows : List CleanRow :=
  [sampleRow (.str "ALI".data) 2024 12 800 true "NO".data,
   sampleRow (.str "VELI".data) 2025 1 500 false "YES".data]

/-- The pivot of the two-row fixture. -/
def fixPivot : PivotTable :=
  (pivot_salesman_monthly fixRows cpiCol).getD default

/-- A raw fixture row: invoiced December 2024 sale by ALI with CPI 800. -/
def raw1 : RawRow :=
  { dateOfRequest := .str "01.12.2024".data
    dateOfIssue := .str "15.12.2024".data
    dateOfDelivery := .blank
    salesMan := .str "ALI".data
    amount := .str "€ 1.000,00".data
    totalDiscount := .str "€ 200,00".data
    cpi := .str "€ 800,00".data
    cps := .str "200".data
    qiForecast := .str "no".data
    invoiced := .str "yes".data
    invoicedAmount := .blank }

/-- A raw fixture row: not-invoiced January 2025 forecast-won sale by VELI
with CPI 500. -/
def raw2 : RawRow :=
  { dateOfRequest := .blank
    dateOfIssue := .str "05.01.2025".data
    dateOfDelivery := .blank
    salesMan := .str "VELI".data
    amount := .str "500".data
    totalDiscount := .blank
    cpi := .str "500".data
    cps := .blank
    qiForecast := .str "YES".data
    invoiced := .blank
    invoicedAmount := .blank }

/-- A well-formed two-row source table. -/
def fixTable : SourceTable :=
  { header := REQUIRED_COLUMNS, rows := [raw1, raw2] }

/-- The cleaned fixture table. -/
def fixDf : List CleanRow := (read_and_clean_data fixTable).toOption.getD []

/-- The report computed from the fixture table. -/
def fixOut : ReportOutput :=
  (generate_sales_report fixTable).toOption.getD default

/-- A source table whose header lacks the Amount column. -/
def badTable : SourceTable :=
  { header := REQUIRED_COLUMNS.filter (fun c => decide (c ≠ "Amount")), rows := [] }

/-! ## Helper lemmas: characters and cleaning -/

theorem mem_DIGITS_of_isDigitCh {c : Char} (h : isDigitCh c = true) : c ∈ DIGITS :=
  of_decide_eq_true h

theorem isDigitCh_of_mem {c : Char} (h : c ∈ DIGITS) : isDigitCh c = true :=
  decide_eq_true h

theorem digit_props {c : Char} (h : c ∈ DIGITS) :
    c ≠ '€' ∧ c ≠ 'T' ∧ c ≠ ' ' ∧ c ≠ '.' ∧ c ≠ ',' ∧ c ≠ '-' ∧ c ≠ '+' ∧
      c ≠ '%' ∧ isPySpace c = false := by
  fin_cases h <;> decide

theorem removeChar_eq_self {x : Char} {s : List Char} (h : ∀ c ∈ s, c ≠ x) :
    removeChar x s = s :=
  List.filter_eq_self.mpr (fun c hc => decide_eq_true (h c hc))

theorem removeChar_append (x : Char) (a b : List Char) :
    removeChar x (a ++ b) = removeChar x a ++ removeChar x b := by
  simp [removeChar]

theorem removeChar_cons_self (x : Char) (s : List Char) :
    removeChar x (x :: s) = removeChar x s := by
  simp [removeChar]

theorem removeChar_cons_of_ne {x c : Char} (s : List Char) (h : c ≠ x) :
    removeChar x (c :: s) = c :: removeChar x s := by
  simp [removeChar, h]

theorem removeTL_eq_self {s : List Char} (h : ∀ c ∈ s, c ≠ 'T') :
    removeTL s = s := by
  induction s with
  | nil => rfl
  | cons c rest ih =>
    match rest with
    | [] => rfl
    | c2 :: rest2 =>
      have hc : c ≠ 'T' := h c (by simp)
      have : removeTL (c :: c2 :: rest2) = c :: removeTL (c2 :: rest2) := by
        rw [removeTL]
        simp [hc]
      rw [this, ih (fun x hx => h x (by simp [hx]))]

theorem commaMap_eq_self {s : List Char} (h : ∀ c ∈ s, c ≠ ',') :
    s.map (fun c => if c = ',' then '.' else c) = s := by
  have : s.map (fun c => if c = ',' then '.' else c) = s.map id :=
    List.map_congr_left (fun c hc => by simp [h c hc])
  simpa using this

theorem takeWhile_eq_self {p : Char → Bool} {s : List Char}
    (h : ∀ c ∈ s, p c = true) : s.takeWhile p = s := by
  induction s with
  | nil => rfl
  | cons c rest ih =>
    rw [List.takeWhile_cons, h c (by simp)]
    simp [ih (fun x hx => h x (by simp [hx]))]

theorem dropWhile_eq_nil {p : Char → Bool} {s : List Char}
    (h : ∀ c ∈ s, p c = true) : s.dropWhile p = [] := by
  induction s with
  | nil => rfl
  | cons c rest ih =>
    rw [List.dropWhile_cons, h c (by simp)]
    simp [ih (fun x hx => h x (by simp [hx]))]

theorem takeWhile_append_stop {p : Char → Bool} {a : List Char} {x : Char}
    (b : List Char) (ha : ∀ c ∈ a, p c = true) (hx : p x = false) :
    (a ++ x :: b).takeWhile p = a := by
  induction a with
  | nil => simp [List.takeWhile_cons, hx]
  | cons c rest ih =>
    rw [List.cons_append, List.takeWhile_cons, ha c (by simp)]
    simp [ih (fun y hy => ha y (by simp [hy]))]

theorem dropWhile_append_stop {p : Char → Bool} {a : List Char} {x : Char}
    (b : List Char) (ha : ∀ c ∈ a, p c = true) (hx : p x = false) :
    (a ++ x :: b).dropWhile p = x :: b := by
  induction a with
  | nil => simp [List.dropWhile_cons, hx]
  | cons c rest ih =>
    rw [List.cons_append, List.dropWhile_cons, ha c (by simp)]
    simp [ih (fun y hy => ha y (by simp [hy]))]

/-! ## Helper lemmas: digit strings and decimal representations -/

theorem digitsFoldl_init (l : List Char) (i : Nat) :
    l.foldl (fun a c => 10 * a + charVal c) i = i * 10 ^ l.length + digitsToNat l := by
  induction l generalizing i with
  | nil => simp [digitsToNat]
  | cons c rest ih =>
    have hD : digitsToNat (c :: rest) = charVal c * 10 ^ rest.length + digitsToNat rest := by
      rw [digitsToNat, List.foldl_cons, ih]
      simp
    rw [List.foldl_cons, ih, hD, List.length_cons, pow_succ]
    ring

theorem digitsToNat_append (a b : List Char) :
    digitsToNat (a ++ b) = digitsToNat a * 10 ^ b.length + digitsToNat b := by
  rw [digitsToNat, List.foldl_append, digitsFoldl_init]
  rfl

theorem digitChar_mem (n : Nat) : digitChar n ∈ DIGITS := by
  unfold digitChar
  split <;> decide

theorem charVal_digitChar {n : Nat} (h : n < 10) : charVal (digitChar n) = n := by
  interval_cases n <;> decide

theorem natReprAux_spec (fuel : Nat) :
    ∀ n, n < fuel → (∀ c ∈ natReprAux fuel n, c ∈ DIGITS)
      ∧ natReprAux fuel n ≠ [] ∧ digitsToNat (natReprAux fuel n) = n := by
  induction fuel with
  | zero => intro n h; omega
  | succ fuel ih =>
    intro n h
    rw [natReprAux]
    split
    · rename_i h10
      refine ⟨?_, by simp, ?_⟩
      · intro c hc
        simp at hc
        simpa [hc] using digitChar_mem n
      · simp [digitsToNat, charVal_digitChar h10]
    · rename_i h10
      have hlt : n / 10 < fuel := by
        have h1 : n / 10 < n := Nat.div_lt_self (by omega) (by omega)
        omega
      obtain ⟨hmem, hne, hval⟩ := ih (n / 10) hlt
      refine ⟨?_, by simp, ?_⟩
      · intro c hc
        rcases List.mem_append.mp hc with h1 | h1
        · exact hmem c h1
        · simp at h1
          simpa [h1] using digitChar_mem (n % 10)
      · rw [digitsToNat_append, hval]
        have h2 : digitsToNat [digitChar (n % 10)] = n % 10 := by
          simp [digitsToNat, charVal_digitChar (Nat.mod_lt n (by omega))]
        rw [h2]
        simp
        omega

theorem natRepr_mem_DIGITS (n : Nat) : ∀ c ∈ natRepr n, c ∈ DIGITS :=
  (natReprAux_spec (n + 1) n (by omega)).1

theorem natRepr_ne_nil (n : Nat) : natRepr n ≠ [] :=
  (natReprAux_spec (n + 1) n (by omega)).2.1

theorem digitsToNat_natRepr (n : Nat) : digitsToNat (natRepr n) = n :=
  (natReprAux_spec (n + 1) n (by omega)).2.2

theorem allDigits_natRepr (n : Nat) : allDigits (natRepr n) = true := by
  rw [allDigits, List.all_eq_true]
  exact fun c hc => isDigitCh_of_mem (natRepr_mem_DIGITS n c hc)

theorem parseNat_natRepr (n : Nat) : parseNat (natRepr n) = some n := by
  rw [parseNat, if_pos ⟨natRepr_ne_nil n, allDigits_natRepr n⟩, digitsToNat_natRepr]

/-! ## Helper lemmas: the float parser on cleaned shapes -/

theorem pyFloatCore_digits_dot {a b : List Char} (ha : ∀ c ∈ a, c ∈ DIGITS)
    (hb : ∀ c ∈ b, c ∈ DIGITS) (hne : a ≠ []) :
    pyFloatCore (a ++ '.' :: b) =
      some ((digitsToNat a : ℚ) + (digitsToNat b : ℚ) / 10 ^ b.length) := by
  have hpa : ∀ c ∈ a, isDigitCh c = true := fun c hc => isDigitCh_of_mem (ha c hc)
  have hpb : ∀ c ∈ b, isDigitCh c = true := fun c hc => isDigitCh_of_mem (hb c hc)
  have hdot : isDigitCh '.' = false := by decide
  simp only [pyFloatCore, takeWhile_append_stop b hpa hdot,
    dropWhile_append_stop b hpa hdot]
  simp [takeWhile_eq_self hpb, dropWhile_eq_nil hpb, hne]

theorem pyFloat_digits_dot {a b : List Char} (ha : ∀ c ∈ a, c ∈ DIGITS)
    (hb : ∀ c ∈ b, c ∈ DIGITS) (hne : a ≠ []) :
    pyFloat (a ++ '.' :: b) =
      some ((digitsToNat a : ℚ) + (digitsToNat b : ℚ) / 10 ^ b.length) := by
  cases a with
  | nil => exact absurd rfl hne
  | cons c a' =>
    have hc := digit_props (ha c (by simp))
    rw [List.cons_append, pyFloat, if_neg hc.2.2.2.2.2.1, if_neg hc.2.2.2.2.2.2.1,
      ← List.cons_append]
    exact pyFloatCore_digits_dot ha hb (by simp)

theorem mem_claim_shape {d1 d2 d3 : List Char} {c : Char}
    (hc : c ∈ d1 ++ '.' :: (d2 ++ ',' :: d3)) :
    c ∈ d1 ∨ c = '.' ∨ c ∈ d2 ∨ c = ',' ∨ c ∈ d3 := by
  simp at hc
  tauto

theorem currencyClean_claim_shape {d1 d2 d3 : List Char}
    (h1 : ∀ c ∈ d1, c ∈ DIGITS) (h2 : ∀ c ∈ d2, c ∈ DIGITS)
    (h3 : ∀ c ∈ d3, c ∈ DIGITS) :
    currencyClean ('€' :: ' ' :: (d1 ++ '.' :: (d2 ++ ',' :: d3)))
      = (d1 ++ d2) ++ '.' :: d3 := by
  set l := d1 ++ '.' :: (d2 ++ ',' :: d3) with hl
  have hprops : ∀ c ∈ l, c ≠ '€' ∧ c ≠ 'T' ∧ c ≠ ' ' := by
    intro c hc
    rcases mem_claim_shape hc with h | h | h | h | h
    · have := digit_props (h1 c h); exact ⟨this.1, this.2.1, this.2.2.1⟩
    · subst h; refine ⟨by decide, by decide, by decide⟩
    · have := digit_props (h2 c h); exact ⟨this.1, this.2.1, this.2.2.1⟩
    · subst h; refine ⟨by decide, by decide, by decide⟩
    · have := digit_props (h3 c h); exact ⟨this.1, this.2.1, this.2.2.1⟩
  have s1 : removeChar '€' ('€' :: ' ' :: l) = ' ' :: l := by
    rw [removeChar_cons_self, removeChar_cons_of_ne _ (by decide),
      removeChar_eq_self (fun c hc => (hprops c hc).1)]
  have s2 : removeTL (' ' :: l) = ' ' :: l := by
    refine removeTL_eq_self ?_
    intro c hc
    rcases List.mem_cons.mp hc with h | h
    · subst h; decide
    · exact (hprops c h).2.1
  have s3 : removeChar ' ' (' ' :: l) = l := by
    rw [removeChar_cons_self, removeChar_eq_self (fun c hc => (hprops c hc).2.2)]
  have s4 : removeChar '.' l = d1 ++ (d2 ++ ',' :: d3) := by
    rw [hl, removeChar_append, removeChar_cons_self, removeChar_append,
      removeChar_cons_of_ne _ (by decide),
      removeChar_eq_self (fun c hc => (digit_props (h1 c hc)).2.2.2.1),
      removeChar_eq_self (fun c hc => (digit_props (h2 c hc)).2.2.2.1),
      removeChar_eq_self (fun c hc => (digit_props (h3 c hc)).2.2.2.1)]
  have s5 : (d1 ++ (d2 ++ ',' :: d3)).map (fun c => if c = ',' then '.' else c)
      = (d1 ++ d2) ++ '.' :: d3 := by
    rw [List.map_append, List.map_append, List.map_cons, if_pos rfl,
      commaMap_eq_self (fun c hc => (digit_props (h1 c hc)).2.2.2.2.1),
      commaMap_eq_self (fun c hc => (digit_props (h2 c hc)).2.2.2.2.1),
      commaMap_eq_self (fun c hc => (digit_props (h3 c hc)).2.2.2.2.1),
      List.append_assoc]
  rw [currencyClean, s1, s2, s3, s4, s5]

theorem clean_currency_value_str (c : Char) (cs : List Char) :
    clean_currency_value (.str (c :: cs)) = pyFloat (currencyClean (c :: cs)) := rfl

theorem clean_percentage_value_str (c : Char) (cs : List Char) :
    clean_percentage_value (.str (c :: cs)) =
      match pyFloat (percentClean (c :: cs)) with
      | some n => some (if 1 < n then n / 100 else n)
      | none => none := rfl

/-! ## Claim C3: the currency normalizer -/

/-- C3: for every currency string of the form "€ X.XXX,YY" — a euro sign, a
space, a non-empty digit group X, a dot, a three-digit group, a comma and a
two-digit decimal part — the currency normalizer returns the decimal number
X*1000 + (three-digit group) + YY/100, and pure numeric input (int or
float) is passed through unchanged as a float. -/
theorem claim_C3_currency_normalizer (d1 d2 d3 : List Char)
    (h1 : ∀ c ∈ d1, c ∈ DIGITS) (h2 : ∀ c ∈ d2, c ∈ DIGITS)
    (h3 : ∀ c ∈ d3, c ∈ DIGITS) (hne : d1 ≠ [])
    (hl2 : d2.length = 3) (hl3 : d3.length = 2) :
    clean_currency_value (.str ('€' :: ' ' :: (d1 ++ '.' :: (d2 ++ ',' :: d3))))
      = some ((digitsToNat d1 : ℚ) * 1000 + digitsToNat d2 + digitsToNat d3 / 100)
    ∧ (∀ q : ℚ, clean_currency_value (.float q) = some q)
    ∧ (∀ i : ℤ, clean_currency_value (.int i) = some (i : ℚ)) := by
  refine ⟨?_, fun q => rfl, fun i => rfl⟩
  rw [clean_currency_value_str, currencyClean_claim_shape h1 h2 h3]
  have h12 : ∀ c ∈ d1 ++ d2, c ∈ DIGITS := by
    intro c hc
    rcases List.mem_append.mp hc with h | h
    · exact h1 c h
    · exact h2 c h
  rw [pyFloat_digits_dot h12 h3 (by simp [hne]), digitsToNat_append, hl2, hl3]
  congr 1
  push_cast
  ring

/-- Witness for C3 at the spec's example: "€ 1.234,56" normalizes to the
value 1*1000 + 234 + 56/100 = 1234.56. -/
theorem claim_C3_currency_normalizer_witness :
    (∀ c ∈ ['1'], c ∈ DIGITS) ∧ (['2', '3', '4'].length = 3) ∧
    clean_currency_value (.str "€ 1.234,56".data)
      = some ((digitsToNat ['1'] : ℚ) * 1000 + digitsToNat ['2', '3', '4']
          + digitsToNat ['5', '6'] / 100) :=
  ⟨by decide, by decide,
    (claim_C3_currency_normalizer ['1'] ['2', '3', '4'] ['5', '6']
      (by decide) (by decide) (by decide) (by decide) (by decide) (by decide)).1⟩

/-! ## Claim C4: the percentage normalizer -/

/-- C4: the percentage normalizer applies the threshold rule "a parsed
value above 1 is divided by 100, a value at most 1 passes through" to
numeric input and to cleaned string input; "%50,0" normalizes to 0.5 and
the number 0.2 to 0.2; and on strings free of currency/percent symbols and
whitespace the percentage cleaning agrees with the currency cleaning
(the same thousands-dot and decimal-comma handling). -/
theorem claim_C4_percentage_normalizer :
    (∀ q : ℚ, clean_percentage_value (.float q) = some (if 1 < q then q / 100 else q))
    ∧ (∀ i : ℤ, clean_percentage_value (.int i)
        = some (if 1 < i then (i : ℚ) / 100 else (i : ℚ)))
    ∧ (∀ s q, pyFloat (percentClean s) = some q → s ≠ [] →
        clean_percentage_value (.str s) = some (if 1 < q then q / 100 else q))
    ∧ clean_percentage_value (.str ['%', '5', '0', ',', '0']) = some (1 / 2)
    ∧ clean_percentage_value (.float (1 / 5)) = some (1 / 5)
    ∧ (∀ s, (∀ c ∈ s, isPySpace c = false) → '€' ∉ s → 'T' ∉ s → '%' ∉ s →
        percentClean s = currencyClean s) := by
  refine ⟨fun q => rfl, fun i => rfl, ?_, ?_, ?_, ?_⟩
  · intro s q hq hne
    cases s with
    | nil => exact absurd rfl hne
    | cons c cs => rw [clean_percentage_value_str, hq]
  · have hclean : percentClean ['%', '5', '0', ',', '0'] = ['5', '0'] ++ '.' :: ['0'] := by
      decide
    have hfloat : pyFloat (['5', '0'] ++ '.' :: ['0'])
        = some ((digitsToNat ['5', '0'] : ℚ) + (digitsToNat ['0'] : ℚ) / 10 ^ (['0'].length)) :=
      pyFloat_digits_dot (by decide) (by decide) (by decide)
    have h50 : digitsToNat ['5', '0'] = 50 := by decide
    have h0 : digitsToNat ['0'] = 0 := by decide
    rw [clean_percentage_value_str, hclean, hfloat, h50, h0]
    norm_num
  · show some (if 1 < (1 / 5 : ℚ) then (1 / 5 : ℚ) / 100 else (1 / 5 : ℚ)) = some (1 / 5)
    norm_num
  · intro s hsp heuro hT hpct
    have hstrip : pyStrip s = s := by
      have h1 : s.dropWhile isPySpace = s :=
        List.dropWhile_eq_self_iff.mpr (by
          cases s with
          | nil => simp
          | cons c cs => simpa using hsp c (by simp))
      rw [pyStrip, h1]
      have h2 : s.reverse.dropWhile isPySpace = s.reverse :=
        List.dropWhile_eq_self_iff.mpr (by
          cases hr : s.reverse with
          | nil => simp
          | cons c cs =>
            have : c ∈ s := by
              have : c ∈ s.reverse := by rw [hr]; simp
              simpa using this
            simpa [hr] using hsp c this)
      rw [h2, List.reverse_reverse]
    have hTL : removeTL (removeChar '€' s) = removeChar '€' s := by
      refine removeTL_eq_self ?_
      intro c hc
      have : c ∈ s := List.mem_of_mem_filter hc
      exact fun h => hT (h ▸ this)
    have heuros : removeChar '€' s = s :=
      removeChar_eq_self (fun c hc h => heuro (h ▸ hc))
    have hspace : removeChar ' ' s = s :=
      removeChar_eq_self (fun c hc h => by
        have := hsp c hc
        rw [h] at this
        simp [isPySpace] at this)
    have hpcts : removeChar '%' s = s :=
      removeChar_eq_self (fun c hc h => hpct (h ▸ hc))
    rw [percentClean, currencyClean, hstrip, hTL, heuros, hspace, hpcts]

/-- Witness for C4: the string-threshold conjunct applied at "%50,0",
whose cleaned form parses to 50 > 1. -/
theorem claim_C4_percentage_normalizer_witness :
    pyFloat (percentClean ['%', '5', '0', ',', '0'])
        = some ((digitsToNat ['5', '0'] : ℚ) + (digitsToNat ['0'] : ℚ) / 10 ^ (['0'].length))
    ∧ clean_percentage_value (.str ['%', '5', '0', ',', '0'])
        = some (if 1 < ((digitsToNat ['5', '0'] : ℚ) + (digitsToNat ['0'] : ℚ) / 10 ^ (['0'].length))
            then ((digitsToNat ['5', '0'] : ℚ) + (digitsToNat ['0'] : ℚ) / 10 ^ (['0'].length)) / 100
            else ((digitsToNat ['5', '0'] : ℚ) + (digitsToNat ['0'] : ℚ) / 10 ^ (['0'].length))) := by
  have hfloat : pyFloat (percentClean ['%', '5', '0', ',', '0'])
      = some ((digitsToNat ['5', '0'] : ℚ) + (digitsToNat ['0'] : ℚ) / 10 ^ (['0'].length)) := by
    have hclean : percentClean ['%', '5', '0', ',', '0'] = ['5', '0'] ++ '.' :: ['0'] := by
      decide
    rw [hclean]
    exact pyFloat_digits_dot (by decide) (by decide) (by decide)
  exact ⟨hfloat,
    (claim_C4_percentage_normalizer.2.2.1 ['%', '5', '0', ',', '0'] _ hfloat (by decide))⟩

/-! ## Claim C9: clamping of the discount fraction -/

/-- Counterexample to C9 as stated: the percentage normalizer (a cited
normalization path for the discount column) maps 150 to 1.5, which is not
in [0, 1]. -/
theorem claim_C9_counterexample :
    clean_percentage_value (.int 150) = some (3 / 2) ∧ ¬ ((3 : ℚ) / 2 ≤ 1) := by
  constructor
  · show some (if (1 : ℤ) < 150 then ((150 : ℤ) : ℚ) / 100 else ((150 : ℤ) : ℚ))
        = some (3 / 2)
    norm_num
  · norm_num

/-- C9 (amended): the clamping holds on the data-entry paths — every
parseable discount cell normalized by the table loader's discount pass is
clamped into [0, 1], and every discount fraction produced by the entry form
is in [0, 1]; the reporting-side percentage normalizer itself does not
clamp. -/
theorem claim_C9_discount_clamped (rawCell amountCell : PyVal) (r : ℚ)
    (h : to_float rawCell = some r) :
    (to_float (normalise_discount_cell rawCell amountCell)).isSome = true
    ∧ 0 ≤ (to_float (normalise_discount_cell rawCell amountCell)).getD 0
    ∧ (to_float (normalise_discount_cell rawCell amountCell)).getD 0 ≤ 1
    ∧ (∀ p d, collect_form_discount p = some d → 0 ≤ d ∧ d ≤ 1) := by
  have hform : ∀ p d, collect_form_discount p = some d → 0 ≤ d ∧ d ≤ 1 := by
    intro p d hpd
    rw [collect_form_discount] at hpd
    split at hpd
    · exact absurd hpd (by simp)
    · split at hpd
      · exact absurd hpd (by simp)
      · have hd : d = max 0 (min (p / 100) 1) := by
          injection hpd with h'
          exact h'.symm
        subst hd
        exact ⟨le_max_left 0 _, max_le (by norm_num) (min_le_right _ _)⟩
  have key : ∀ f : ℚ,
      (to_float (if r ≠ max 0 (min f 1) then PyVal.float (max 0 (min f 1))
          else rawCell)).isSome = true
      ∧ 0 ≤ (to_float (if r ≠ max 0 (min f 1) then PyVal.float (max 0 (min f 1))
          else rawCell)).getD 0
      ∧ (to_float (if r ≠ max 0 (min f 1) then PyVal.float (max 0 (min f 1))
          else rawCell)).getD 0 ≤ 1 := by
    intro f
    have hb : (0 : ℚ) ≤ max 0 (min f 1) ∧ max 0 (min f 1) ≤ 1 :=
      ⟨le_max_left 0 _, max_le (by norm_num) (min_le_right _ _)⟩
    by_cases hne : r ≠ max 0 (min f 1)
    · rw [if_pos hne]
      refine ⟨rfl, ?_, ?_⟩
      · simp only [to_float, Option.getD_some]
        exact hb.1
      · simp only [to_float, Option.getD_some]
        exact hb.2
    · rw [if_neg hne]
      push_neg at hne
      rw [h]
      refine ⟨rfl, ?_, ?_⟩
      · simp only [Option.getD_some]
        rw [hne]
        exact hb.1
      · simp only [Option.getD_some]
        rw [hne]
        exact hb.2
  have hred : normalise_discount_cell rawCell amountCell
      = if r ≠ max 0 (min (if 1 < r then
            (match to_float amountCell with
              | some a => if a ≠ 0 then r / a else r / 100
              | none => r / 100)
            else r) 1) then
          PyVal.float (max 0 (min (if 1 < r then
            (match to_float amountCell with
              | some a => if a ≠ 0 then r / a else r / 100
              | none => r / 100)
            else r) 1))
        else rawCell := by
    simp only [normalise_discount_cell, h]
  rw [hred]
  have hk := key (if 1 < r then
      (match to_float amountCell with
        | some a => if a ≠ 0 then r / a else r / 100
        | none => r / 100)
      else r)
  exact ⟨hk.1, hk.2.1, hk.2.2, hform⟩

/-- Witness for C9 (amended): the loader's discount pass at the raw value
150 with a missing amount produces a clamped value. -/
theorem claim_C9_discount_clamped_witness :
    to_float (.int 150) = some ((150 : ℤ) : ℚ)
    ∧ (to_float (normalise_discount_cell (.int 150) .blank)).isSome = true
    ∧ 0 ≤ (to_float (normalise_discount_cell (.int 150) .blank)).getD 0
    ∧ (to_float (normalise_discount_cell (.int 150) .blank)).getD 0 ≤ 1 := by
  have h := claim_C9_discount_clamped (.int 150) .blank ((150 : ℤ) : ℚ) rfl
  exact ⟨rfl, h.1, h.2.1, h.2.2.1⟩

/-! ## Claim C8: the normalizers are total and never raise -/

theorem tryFormatsE_eq (fs : List DateFmt) (s : List Char) :
    tryFormatsE fs s = .ok (tryFormats fs s) := by
  induction fs with
  | nil => rfl
  | cons f fs ih =>
    simp only [tryFormatsE, tryFormats, strptimeE]
    cases strptime f s with
    | some d => rfl
    | none => simpa using ih

/-- C8: with the source's exceptions made explicit, the date normalizer and
the currency normalizer always return a value — an unparseable input
degrades to the missing sentinel (for dates after the ordered format list
and the lenient fallback, for currency after the cleaned parse) — and the
loader keeps every row, so per-cell failure never shrinks the table. -/
theorem claim_C8_normalizers_total (t : SourceTable) (df : List CleanRow)
    (h : read_and_clean_data t = .ok df) :
    (∀ v, clean_currency_valueE v = .ok (clean_currency_value v))
    ∧ (∀ v, parse_turkish_dateE v = .ok (parse_turkish_date v))
    ∧ df.length = t.rows.length := by
  have hcur : ∀ v, clean_currency_valueE v = .ok (clean_currency_value v) := by
    intro v
    cases v with
    | blank => rfl
    | bool b => rfl
    | int i => rfl
    | float q => rfl
    | date d =>
      simp only [clean_currency_valueE, clean_currency_value, floatE]
      cases pyFloat (currencyClean (pyStr (.date d))) <;> rfl
    | str s =>
      cases s with
      | nil => rfl
      | cons c cs =>
        simp only [clean_currency_valueE, clean_currency_value, floatE]
        cases pyFloat (currencyClean (pyStr (.str (c :: cs)))) <;> rfl
  have hdate : ∀ v, parse_turkish_dateE v = .ok (parse_turkish_date v) := by
    intro v
    cases v with
    | blank => rfl
    | date d => rfl
    | bool b =>
      simp only [parse_turkish_dateE, parse_turkish_date, tryFormatsE_eq]
      cases tryFormats DATE_FORMATS (pyStrip (pyStr (.bool b))) <;> rfl
    | int i =>
      simp only [parse_turkish_dateE, parse_turkish_date, tryFormatsE_eq]
      cases tryFormats DATE_FORMATS (pyStrip (pyStr (.int i))) <;> rfl
    | float q =>
      simp only [parse_turkish_dateE, parse_turkish_date, tryFormatsE_eq]
      cases tryFormats DATE_FORMATS (pyStrip (pyStr (.float q))) <;> rfl
    | str s =>
      cases s with
      | nil => rfl
      | cons c cs =>
        simp only [parse_turkish_dateE, parse_turkish_date, tryFormatsE_eq]
        cases tryFormats DATE_FORMATS (pyStrip (pyStr (.str (c :: cs)))) <;> rfl
  have hlen : df.length = t.rows.length := by
    rw [read_and_clean_data] at h
    split at h
    · exact absurd h (by simp)
    · injection h with h'
      rw [← h']
      simp
  exact ⟨hcur, hdate, hlen⟩

/-- Witness for C8: the fixture table loads completely (both rows kept),
and an unparseable currency string returns without raising. -/
theorem claim_C8_normalizers_total_witness :
    read_and_clean_data fixTable = .ok fixDf
    ∧ clean_currency_valueE (.str "abc".data)
        = .ok (clean_currency_value (.str "abc".data))
    ∧ fixDf.length = fixTable.rows.length := by
  have h : read_and_clean_data fixTable = .ok fixDf := rfl
  have hc := claim_C8_normalizers_total fixTable fixDf h
  exact ⟨h, hc.1 (.str "abc".data), hc.2.2⟩

/-! ## Claim C5: validation enumerates every missing column -/

theorem joinComma_infix {c : String} {l : List String} (h : c ∈ l) :
    ∃ pre post, joinComma l = pre ++ c.data ++ post := by
  induction l with
  | nil => simp at h
  | cons a rest ih =>
    rcases List.mem_cons.mp h with rfl | hmem
    · cases rest with
      | nil => exact ⟨[], [], by simp [joinComma]⟩
      | cons b rest2 =>
        exact ⟨[], ", ".data ++ joinComma (b :: rest2), by rw [joinComma] <;> simp⟩
    · cases rest with
      | nil => simp at hmem
      | cons b rest2 =>
        obtain ⟨pre, post, hpp⟩ := ih hmem
        refine ⟨a.data ++ ", ".data ++ pre, post, ?_⟩
        rw [joinComma] <;> simp [hpp]

/-- C5: a source table missing required columns makes the loader fail with
a validation error whose payload is exactly the list of every missing
required column and whose message text contains each missing name; the
report generator propagates that error before producing any output. -/
theorem claim_C5_validation (t : SourceTable) (h : missing_columns t.header ≠ []) :
    generate_sales_report t
      = .error (.validation (missing_columns t.header)
          (VALIDATION_PREFIX ++ joinComma (missing_columns t.header)))
    ∧ (∀ c, c ∈ missing_columns t.header ↔ c ∈ REQUIRED_COLUMNS ∧ c ∉ t.header)
    ∧ (∀ c ∈ missing_columns t.header, ∃ pre post,
        VALIDATION_PREFIX ++ joinComma (missing_columns t.header)
          = pre ++ c.data ++ post) := by
  have hread : read_and_clean_data t
      = .error (.validation (missing_columns t.header)
          (VALIDATION_PREFIX ++ joinComma (missing_columns t.header))) := by
    rw [read_and_clean_data, if_pos h]
  refine ⟨?_, ?_, ?_⟩
  · rw [generate_sales_report, hread]
    rfl
  · intro c
    simp [missing_columns, List.mem_filter]
  · intro c hc
    obtain ⟨pre, post, hpp⟩ := joinComma_infix hc
    refine ⟨VALIDATION_PREFIX ++ pre, post, ?_⟩
    rw [hpp]
    simp

/-- Witness for C5: dropping the Amount column yields the validation error
with the full missing-column list. -/
theorem claim_C5_validation_witness :
    missing_columns badTable.header ≠ []
    ∧ generate_sales_report badTable
      = .error (.validation (missing_columns badTable.header)
          (VALIDATION_PREFIX ++ joinComma (missing_columns badTable.header))) :=
  ⟨by decide, (claim_C5_validation badTable (by decide)).1⟩

/-! ## Helper lemmas: grouped sums -/

theorem qsumOpt_cons (x : Option ℚ) (l : List (Option ℚ)) :
    qsumOpt (x :: l) = x.getD 0 + qsumOpt l := by
  cases x <;> simp [qsumOpt]

theorem list_sum_map_add {α : Type} (l : List α) (f g : α → ℚ) :
    (l.map (fun x => f x + g x)).sum = (l.map f).sum + (l.map g).sum := by
  induction l with
  | nil => simp
  | cons a l ih =>
    simp only [List.map_cons, List.sum_cons, ih]
    ring

theorem sum_single_hit {β : Type} [DecidableEq β] (names : List β)
    (hnd : names.Nodup) (k : β) (v : ℚ) :
    (names.map (fun s => if k = s then v else 0)).sum
      = if k ∈ names then v else 0 := by
  induction names with
  | nil => simp
  | cons a rest ih =>
    rcases List.nodup_cons.mp hnd with ⟨ha, hrest⟩
    by_cases hk : k = a
    · subst hk
      have hnotin : k ∉ rest := ha
      simp [ih hrest, hnotin]
    · simp [hk, ih hrest]

theorem group_sum {α β : Type} [DecidableEq β] (names : List β)
    (hnd : names.Nodup) (rows : List α) (key : α → β) (val : α → Option ℚ) :
    (names.map (fun s =>
        qsumOpt ((rows.filter (fun r => decide (key r = s))).map val))).sum
      = qsumOpt ((rows.filter (fun r => decide (key r ∈ names))).map val) := by
  induction rows with
  | nil => simp [qsumOpt]
  | cons r rest ih =>
    have hstep : ∀ s : β,
        qsumOpt (((r :: rest).filter (fun x => decide (key x = s))).map val)
          = (if key r = s then (val r).getD 0 else 0)
            + qsumOpt ((rest.filter (fun x => decide (key x = s))).map val) := by
      intro s
      by_cases hk : key r = s
      · simp [List.filter_cons, hk, qsumOpt_cons]
      · simp [List.filter_cons, hk]
    have hRstep : qsumOpt (((r :: rest).filter (fun x => decide (key x ∈ names))).map val)
        = (if key r ∈ names then (val r).getD 0 else 0)
          + qsumOpt ((rest.filter (fun x => decide (key x ∈ names))).map val) := by
      by_cases hk : key r ∈ names
      · simp [List.filter_cons, hk, qsumOpt_cons]
      · simp [List.filter_cons, hk]
    rw [List.map_congr_left (fun s _ => hstep s), list_sum_map_add, hRstep,
      sum_single_hit names hnd (key r) ((val r).getD 0), ih]

theorem qsum_filter_partition {α : Type} (l : List α) (f : α → Bool)
    (val : α → Option ℚ) :
    qsumOpt (l.map val)
      = qsumOpt ((l.filter f).map val)
        + qsumOpt ((l.filter (fun x => !f x)).map val) := by
  induction l with
  | nil => simp [qsumOpt]
  | cons a l ih =>
    cases hf : f a <;>
      simp [List.filter_cons, hf, qsumOpt_cons, ih] <;> ring

theorem length_filter_partition {α : Type} (l : List α) (f : α → Bool) :
    (l.filter f).length + (l.filter (fun x => !f x)).length = l.length := by
  induction l with
  | nil => rfl
  | cons a l ih =>
    cases hf : f a <;> simp [List.filter_cons, hf] <;> omega

/-! ## Claim C7: salesperson totals conserve value mass -/

/-- Counterexample to C7 as stated: a row whose salesperson cell is missing
is dropped by the grouping, so its value is absent from the totals while it
is present in the value column of the same row subset. -/
theorem claim_C7_counterexample :
    ¬ (((salesperson_totals [sampleRow .blank 2024 12 5 true "NO".data] cpiCol).map
          Prod.snd).sum
        = qsumOpt ([sampleRow .blank 2024 12 5 true "NO".data].map cpiCol)) := by
  with_unfolding_all decide

/-- C7 (amended): the sum of the salesperson-totals entries equals the sum
of the value column over the rows of the subset that carry a (non-missing)
salesperson; rows with a missing salesperson cell are excluded by the
grouping. -/
theorem claim_C7_mass_conservation (rows : List CleanRow)
    (val : CleanRow → Option ℚ) :
    ((salesperson_totals rows val).map Prod.snd).sum
      = qsumOpt ((rows.filter (fun r => decide (r.salesMan ≠ .blank))).map val) := by
  have h1 : salesperson_totals rows val
      = List.insertionSort salesTotalGE
          ((((rows.filter (fun r => decide (r.salesMan ≠ .blank))).map
              (fun r => r.salesMan)).dedup).map
            (fun s => (s, qsumOpt (((rows.filter
              (fun r => decide (r.salesMan ≠ .blank))).filter
                (fun r => decide (r.salesMan = s))).map val)))) := rfl
  rw [h1]
  have hperm := ((List.perm_insertionSort salesTotalGE
      ((((rows.filter (fun r => decide (r.salesMan ≠ .blank))).map
          (fun r => r.salesMan)).dedup).map
        (fun s => (s, qsumOpt (((rows.filter
          (fun r => decide (r.salesMan ≠ .blank))).filter
            (fun r => decide (r.salesMan = s))).map val))))).map Prod.snd).sum_eq
  rw [hperm, List.map_map]
  have hcomp : (Prod.snd ∘ fun s => (s, qsumOpt (((rows.filter
      (fun r => decide (r.salesMan ≠ .blank))).filter
        (fun r => decide (r.salesMan = s))).map val)))
      = fun s => qsumOpt (((rows.filter (fun r => decide (r.salesMan ≠ .blank))).filter
          (fun r => decide (r.salesMan = s))).map val) := rfl
  rw [hcomp, group_sum _ (List.nodup_dedup _) _ (fun r => r.salesMan) val]
  congr 1
  refine congrArg (List.map val) (List.filter_eq_self.mpr ?_)
  intro r hr
  exact decide_eq_true (List.mem_dedup.mpr
    (List.mem_map_of_mem (fun r => r.salesMan) hr))

/-! ## Claim C10: the invoiced flag partitions the table -/

/-- C10: the boolean normalizer returns a strict boolean, the invoiced=true
and invoiced=false subsets partition the normalized table exactly, and in
every generated report the total-CPI metric equals the invoiced-segment
metric plus the not-invoiced-segment metric. -/
theorem claim_C10_invoiced_partition (t : SourceTable) (out : ReportOutput)
    (h : generate_sales_report t = .ok out) :
    (∀ v, normalise_boolean v = true ∨ normalise_boolean v = false)
    ∧ (out.df.filter (fun r => r.invoiced)).length
        + (out.df.filter (fun r => !r.invoiced)).length = out.df.length
    ∧ (∀ r ∈ out.df, (r ∈ out.df.filter (fun r => r.invoiced))
        ↔ ¬ (r ∈ out.df.filter (fun r => !r.invoiced)))
    ∧ (out.summary.map Prod.fst).take 3
        = ["Toplam CPI".data, "Faturalanan CPI".data, "Faturalanmayan CPI".data]
    ∧ summaryHeadRel out.summary := by
  have hbool : ∀ v, normalise_boolean v = true ∨ normalise_boolean v = false :=
    fun v => Bool.eq_false_or_eq_true (normalise_boolean v)
  have hpartlen : ∀ df : List CleanRow,
      (df.filter (fun r => r.invoiced)).length
        + (df.filter (fun r => !r.invoiced)).length = df.length :=
    fun df => length_filter_partition df (fun r => r.invoiced)
  have hpartmem : ∀ df : List CleanRow, ∀ r ∈ df,
      (r ∈ df.filter (fun r => r.invoiced))
        ↔ ¬ (r ∈ df.filter (fun r => !r.invoiced)) := by
    intro df r hr
    simp only [List.mem_filter, hr, true_and]
    cases r.invoiced <;> simp
  rw [generate_sales_report] at h
  cases hread : read_and_clean_data t with
  | error e =>
    rw [hread] at h
    exact absurd h (by simp [Bind.bind, Except.bind])
  | ok df =>
    rw [hread] at h
    simp only [Bind.bind, Except.bind] at h
    cases hp1 : pivot_salesman_monthly (df.filter (fun r => r.invoiced)) cpiCol with
    | none =>
      rw [hp1] at h
      cases pivot_salesman_monthly (df.filter (fun r => !r.invoiced)) cpiCol <;>
        cases pivot_salesman_monthly
          (df.filter (fun r => decide (pyUpper r.qiForecast = "YES".data))) cpiCol <;>
        exact absurd h (by simp)
    | some p1 =>
      rw [hp1] at h
      cases hp2 : pivot_salesman_monthly (df.filter (fun r => !r.invoiced)) cpiCol with
      | none =>
        rw [hp2] at h
        cases pivot_salesman_monthly
          (df.filter (fun r => decide (pyUpper r.qiForecast = "YES".data))) cpiCol <;>
          exact absurd h (by simp)
      | some p2 =>
        rw [hp2] at h
        cases hp3 : pivot_salesman_monthly
            (df.filter (fun r => decide (pyUpper r.qiForecast = "YES".data))) cpiCol with
        | none =>
          rw [hp3] at h
          exact absurd h (by simp)
        | some p3 =>
          rw [hp3] at h
          injection h with h'
          subst h'
          refine ⟨hbool, hpartlen df, hpartmem df, ?_, ?_⟩
          · rfl
          · show qsumOpt (df.map cpiCol)
              = qsumOpt ((df.filter (fun r => r.invoiced)).map cpiCol)
                + qsumOpt ((df.filter (fun r => !r.invoiced)).map cpiCol)
            exact qsum_filter_partition df (fun r => r.invoiced) cpiCol

/-- Witness for C10: the two-row fixture report satisfies the metric
additivity. -/
theorem claim_C10_invoiced_partition_witness :
    generate_sales_report fixTable = .ok fixOut ∧ summaryHeadRel fixOut.summary := by
  have h : generate_sales_report fixTable = .ok fixOut := by
    with_unfolding_all rfl
  exact ⟨h, (claim_C10_invoiced_partition fixTable fixOut h).2.2.2.2⟩

/-! ## Claim C2: monthly totals in chronological order -/

/-- C2: the monthly aggregation's entries are sums of the value column over
the rows of their (Year, MonthNumber, MonthName, MonthYear) group, the
groups are exactly the keys present in the input rows, and the output is
sorted ascending by (Year, MonthNumber) — true chronological order,
independent of the lexical order of the labels. -/
theorem claim_C2_monthly_totals (rows : List CleanRow) (val : CleanRow → Option ℚ) :
    (∀ k t, (k, t) ∈ filter_monthly_data rows val →
      t = qsumOpt ((rows.filter (fun r => decide (monthGroupKey r = some k))).map val))
    ∧ (∀ k, k ∈ (filter_monthly_data rows val).map Prod.fst
        ↔ ∃ r ∈ rows, monthGroupKey r = some k)
    ∧ List.Pairwise monthKeyLE ((filter_monthly_data rows val).map Prod.fst) := by
  have hdef : filter_monthly_data rows val
      = (List.insertionSort monthKeyLE ((rows.filterMap monthGroupKey).dedup)).map
          (fun k => (k, qsumOpt ((rows.filter
            (fun r => decide (monthGroupKey r = some k))).map val))) := rfl
  have hfst : (filter_monthly_data rows val).map Prod.fst
      = List.insertionSort monthKeyLE ((rows.filterMap monthGroupKey).dedup) := by
    rw [hdef, List.map_map]
    exact List.map_id _
  refine ⟨?_, ?_, ?_⟩
  · intro k t hmem
    rw [hdef] at hmem
    obtain ⟨k', _, heq⟩ := List.mem_map.mp hmem
    have hk : k' = k := congrArg Prod.fst heq
    subst hk
    exact (congrArg Prod.snd heq).symm
  · intro k
    rw [hfst, List.mem_insertionSort, List.mem_dedup, List.mem_filterMap]
  · rw [hfst]
    exact List.sorted_insertionSort monthKeyLE _

/-- Witness for C2 at the year-boundary fixture: the two groups come out
with December 2024 before January 2025, sorted by the (Year, MonthNumber)
key. -/
theorem claim_C2_monthly_totals_witness :
    (filter_monthly_data fixRows cpiCol).map Prod.fst
      = [(2024, 12, "Aralık".data, "2024 Aralık".data),
         (2025, 1, "Ocak".data, "2025 Ocak".data)]
    ∧ List.Pairwise monthKeyLE ((filter_monthly_data fixRows cpiCol).map Prod.fst) :=
  ⟨by with_unfolding_all rfl, (claim_C2_monthly_totals fixRows cpiCol).2.2⟩

/-! ## Claim C1: the month×salesperson pivot -/

theorem keyedLabels_map_fst :
    ∀ {ls : List (List Char)} {ks}, keyedLabels ls = some ks →
      ks.map Prod.fst = ls := by
  intro ls
  induction ls with
  | nil =>
    intro ks h
    rw [keyedLabels] at h
    injection h with h'
    rw [← h']
    rfl
  | cons l ls ih =>
    intro ks h
    rw [keyedLabels] at h
    cases hk : month_year_sort_key l with
    | none => rw [hk] at h; exact absurd h (by simp)
    | some k =>
      rw [hk] at h
      cases hr : keyedLabels ls with
      | none => rw [hr] at h; exact absurd h (by simp)
      | some rest =>
        rw [hr] at h
        injection h with h'
        rw [← h']
        simp [ih hr]

theorem keyedLabels_keys :
    ∀ {ls : List (List Char)} {ks}, keyedLabels ls = some ks →
      ∀ q ∈ ks, month_year_sort_key q.1 = some q.2 := by
  intro ls
  induction ls with
  | nil =>
    intro ks h q hq
    rw [keyedLabels] at h
    injection h with h'
    rw [← h'] at hq
    simp at hq
  | cons l ls ih =>
    intro ks h q hq
    rw [keyedLabels] at h
    cases hk : month_year_sort_key l with
    | none => rw [hk] at h; exact absurd h (by simp)
    | some k =>
      rw [hk] at h
      cases hr : keyedLabels ls with
      | none => rw [hr] at h; exact absurd h (by simp)
      | some rest =>
        rw [hr] at h
        injection h with h'
        rw [← h'] at hq
        rcases List.mem_cons.mp hq with rfl | hq'
        · exact hk
        · exact ih hr q hq'

theorem find?_map_pair {β : Type} (f : List Char → β) :
    ∀ (ls : List (List Char)) (m : List Char), m ∈ ls →
      (ls.map (fun x => (x, f x))).find? (fun r => decide (r.1 = m))
        = some (m, f m) := by
  intro ls
  induction ls with
  | nil => intro m h; simp at h
  | cons a ls ih =>
    intro m hm
    rw [List.map_cons, List.find?_cons]
    by_cases ha : a = m
    · subst ha
      simp
    · have hm' : m ∈ ls := by
        rcases List.mem_cons.mp hm with h | h
        · exact absurd h.symm ha
        · exact h
      simp only [decide_eq_false ha]
      exact ih m hm'

theorem zipFind_map (g : PyVal → ℚ) :
    ∀ (names : List PyVal) (s : PyVal), s ∈ names →
      zipFind names (names.map g) s = some (g s) := by
  intro names
  induction names with
  | nil => intro s h; simp at h
  | cons a ns ih =>
    intro s hs
    rw [List.map_cons, zipFind]
    by_cases ha : a = s
    · subst ha
      simp
    · rw [if_neg ha]
      refine ih s ?_
      rcases List.mem_cons.mp hs with h | h
      · exact absurd h.symm ha
      · exact h

theorem sort_key_mkMonthYear (y mn : Nat) (nm : List Char)
    (h : TURKISH_MONTHS mn = some nm) :
    month_year_sort_key (mkMonthYear y nm) = some (y, mn) := by
  have hnone : ∀ k : Nat, k = 0 ∨ 13 ≤ k → TURKISH_MONTHS k = none := by
    intro k hk
    obtain ⟨n1, n2, n3, n4, n5, n6, n7, n8, n9, n10, n11, n12⟩ :
        k ≠ 1 ∧ k ≠ 2 ∧ k ≠ 3 ∧ k ≠ 4 ∧ k ≠ 5 ∧ k ≠ 6 ∧ k ≠ 7 ∧ k ≠ 8 ∧
          k ≠ 9 ∧ k ≠ 10 ∧ k ≠ 11 ∧ k ≠ 12 := by omega
    simp [TURKISH_MONTHS, n1, n2, n3, n4, n5, n6, n7, n8, n9, n10, n11, n12]
  have hrange : 1 ≤ mn ∧ mn ≤ 12 := by
    by_contra hc
    rw [hnone mn (by omega)] at h
    exact Option.noConfusion h
  have hdigit : ∀ c ∈ natRepr y, (fun c => decide (c ≠ ' ')) c = true := fun c hc =>
    decide_eq_true (digit_props (natRepr_mem_DIGITS y c hc)).2.2.1
  have hkey : month_year_sort_key (mkMonthYear y nm)
      = some (y, ((List.range' 1 12).filter
          (fun k => decide (TURKISH_MONTHS k = some nm))).headD 0) := by
    simp only [month_year_sort_key, mkMonthYear,
      @takeWhile_append_stop (fun c => decide (c ≠ ' ')) (natRepr y) ' ' nm hdigit
        (by decide),
      @dropWhile_append_stop (fun c => decide (c ≠ ' ')) (natRepr y) ' ' nm hdigit
        (by decide),
      parseNat_natRepr]
  rw [hkey, Option.some.injEq, Prod.mk.injEq]
  refine ⟨rfl, ?_⟩
  obtain ⟨h1, h2⟩ := hrange
  interval_cases mn <;> (injection h with h2; subst h2; decide)

/-- C1: in every pivot the label rows are exactly the months present in the
kept input rows and the columns exactly the salespeople present; the cell
at any (month, salesperson) pair is the sum of the value column over the
matching rows, so a combination with no matching input row holds exactly
0.0; the pivot rows are sorted by the (year, month) key recovered from the
labels; and that recovery inverts the label construction
"<year> <localized month name>". -/
theorem claim_C1_pivot (rows : List CleanRow) (val : CleanRow → Option ℚ)
    (p : PivotTable) (hp : pivot_salesman_monthly rows val = some p) :
    (∀ m, m ∈ p.rows.map Prod.fst
        ↔ ∃ r ∈ rows, r.monthYear = some m ∧ r.salesMan ≠ .blank)
    ∧ (∀ s, s ∈ p.salesmen
        ↔ ∃ r ∈ rows, r.salesMan = s ∧ r.monthYear ≠ none ∧ r.salesMan ≠ .blank)
    ∧ (∀ m s, m ∈ p.rows.map Prod.fst → s ∈ p.salesmen →
        p.cell m s = some (qsumOpt ((rows.filter (fun r =>
          decide (r.monthYear = some m ∧ r.salesMan = s))).map val)))
    ∧ (∀ m s, m ∈ p.rows.map Prod.fst → s ∈ p.salesmen →
        (∀ r ∈ rows, ¬ (r.monthYear = some m ∧ r.salesMan = s)) →
        p.cell m s = some 0)
    ∧ List.Pairwise labelKeyLE (p.rows.map Prod.fst)
    ∧ (∀ y mn nm, TURKISH_MONTHS mn = some nm →
        month_year_sort_key (mkMonthYear y nm) = some (y, mn)) := by
  rw [pivot_salesman_monthly] at hp
  set kept := rows.filter
    (fun r => decide (r.monthYear ≠ none ∧ r.salesMan ≠ PyVal.blank)) with hkept
  set labels := (kept.filterMap (fun r => r.monthYear)).dedup with hlabels
  set salesmen := (kept.map (fun r => r.salesMan)).dedup with hsalesmen
  cases hk : keyedLabels labels with
  | none =>
    rw [hk] at hp
    exact absurd hp (by simp)
  | some keyed =>
    rw [hk] at hp
    injection hp with hp'
    set CELL := fun (m : List Char) (s : PyVal) =>
      qsumOpt ((kept.filter (fun r =>
        decide (r.monthYear = some m ∧ r.salesMan = s))).map val) with hCELL
    have hpsales : p.salesmen = salesmen := by rw [← hp']
    have hprows : p.rows
        = ((List.insertionSort keyPairLE keyed).map Prod.fst).map
            (fun m => (m, salesmen.map (fun s => CELL m s))) := by
      rw [← hp']
    have hfst : p.rows.map Prod.fst
        = (List.insertionSort keyPairLE keyed).map Prod.fst := by
      rw [hprows, List.map_map]
      exact List.map_id _
    have hmemlab : ∀ m, m ∈ p.rows.map Prod.fst ↔ m ∈ labels := by
      intro m
      rw [hfst]
      constructor
      · intro hm
        obtain ⟨q, hq, hqm⟩ := List.mem_map.mp hm
        have : q ∈ keyed := (List.mem_insertionSort keyPairLE).mp hq
        rw [← keyedLabels_map_fst hk]
        exact hqm ▸ List.mem_map_of_mem Prod.fst this
      · intro hm
        rw [← keyedLabels_map_fst hk] at hm
        obtain ⟨q, hq, hqm⟩ := List.mem_map.mp hm
        exact hqm ▸ List.mem_map_of_mem Prod.fst
          ((List.mem_insertionSort keyPairLE).mpr hq)
    have hlabiff : ∀ m, m ∈ labels
        ↔ ∃ r ∈ rows, r.monthYear = some m ∧ r.salesMan ≠ PyVal.blank := by
      intro m
      rw [hlabels, List.mem_dedup, List.mem_filterMap]
      constructor
      · rintro ⟨r, hr, hrm⟩
        have := List.mem_filter.mp (hkept ▸ hr)
        have hcond := of_decide_eq_true this.2
        exact ⟨r, this.1, hrm, hcond.2⟩
      · rintro ⟨r, hr, hrm, hrs⟩
        refine ⟨r, ?_, hrm⟩
        rw [hkept]
        refine List.mem_filter.mpr ⟨hr, decide_eq_true ⟨?_, hrs⟩⟩
        rw [hrm]
        simp
    have hsalesiff : ∀ s, s ∈ salesmen
        ↔ ∃ r ∈ rows, r.salesMan = s ∧ r.monthYear ≠ none
            ∧ r.salesMan ≠ PyVal.blank := by
      intro s
      rw [hsalesmen, List.mem_dedup, List.mem_map]
      constructor
      · rintro ⟨r, hr, hrs⟩
        have := List.mem_filter.mp (hkept ▸ hr)
        have hcond := of_decide_eq_true this.2
        exact ⟨r, this.1, hrs, hcond.1, hcond.2⟩
      · rintro ⟨r, hr, hrs, hmy, hsm⟩
        refine ⟨r, ?_, hrs⟩
        rw [hkept]
        exact List.mem_filter.mpr ⟨hr, decide_eq_true ⟨hmy, hsm⟩⟩
    have hcell : ∀ m s, m ∈ p.rows.map Prod.fst → s ∈ p.salesmen →
        p.cell m s = some (CELL m s) := by
      intro m s hm hs
      rw [PivotTable.cell, hprows, rowFind,
        find?_map_pair (fun m => salesmen.map (fun s => CELL m s))
          ((List.insertionSort keyPairLE keyed).map Prod.fst) m (hfst ▸ hm),
        hpsales]
      exact zipFind_map (fun s => CELL m s) salesmen s (hpsales ▸ hs)
    have hcellrows : ∀ m s, s ≠ PyVal.blank →
        CELL m s = qsumOpt ((rows.filter (fun r =>
          decide (r.monthYear = some m ∧ r.salesMan = s))).map val) := by
      intro m s hsb
      simp only [hCELL, hkept, List.filter_filter]
      have heq : rows.filter (fun r => decide (r.monthYear = some m ∧ r.salesMan = s)
            && decide (r.monthYear ≠ none ∧ r.salesMan ≠ PyVal.blank))
          = rows.filter (fun r => decide (r.monthYear = some m ∧ r.salesMan = s)) := by
        refine List.filter_congr ?_
        intro r _
        rcases hdec : decide (r.monthYear = some m ∧ r.salesMan = s) with _ | _
        · simp
        · have hcond := of_decide_eq_true hdec
          have h2 : decide (r.monthYear ≠ none ∧ r.salesMan ≠ PyVal.blank) = true := by
            refine decide_eq_true ⟨?_, ?_⟩
            · rw [hcond.1]; simp
            · rw [hcond.2]; exact hsb
          simp [h2]
      rw [heq]
    refine ⟨fun m => (hmemlab m).trans (hlabiff m),
      fun s => by rw [hpsales]; exact hsalesiff s, ?_, ?_, ?_, sort_key_mkMonthYear⟩
    · intro m s hm hs
      have hsb : s ≠ PyVal.blank := by
        obtain ⟨r, _, hrs, _, hb⟩ := (hsalesiff s).mp (hpsales ▸ hs)
        rw [← hrs]
        exact hb
      rw [hcell m s hm hs, hcellrows m s hsb]
    · intro m s hm hs hnone
      have hsb : s ≠ PyVal.blank := by
        obtain ⟨r, _, hrs, _, hb⟩ := (hsalesiff s).mp (hpsales ▸ hs)
        rw [← hrs]
        exact hb
      rw [hcell m s hm hs, hcellrows m s hsb]
      have hnil : rows.filter (fun r =>
          decide (r.monthYear = some m ∧ r.salesMan = s)) = [] := by
        rw [List.filter_eq_nil_iff]
        intro r hr
        simp only [decide_eq_true_eq]
        exact hnone r hr
      rw [hnil]
      rfl
    · rw [hfst]
      have hsorted := List.sorted_insertionSort keyPairLE keyed
      have hkeys : ∀ q ∈ List.insertionSort keyPairLE keyed,
          month_year_sort_key q.1 = some q.2 := by
        intro q hq
        exact keyedLabels_keys hk q ((List.mem_insertionSort keyPairLE).mp hq)
      refine List.pairwise_map.mpr ?_
      refine hsorted.imp_of_mem ?_
      intro a b ha hb hab
      intro ka kb hka hkb
      rw [hkeys a ha] at hka
      rw [hkeys b hb] at hkb
      have hka' := Option.some.inj hka
      have hkb' := Option.some.inj hkb
      rw [← hka', ← hkb']
      exact hab

/-- Witness for C1 at the two-row fixture: the (December 2024, VELI)
combination is absent from the input, and its pivot cell is exactly 0. -/
theorem claim_C1_pivot_witness :
    pivot_salesman_monthly fixRows cpiCol = some fixPivot
    ∧ fixPivot.cell "2024 Aralık".data (.str "VELI".data) = some 0 := by
  have hp : pivot_salesman_monthly fixRows cpiCol = some fixPivot := by
    with_unfolding_all rfl
  refine ⟨hp, ?_⟩
  refine (claim_C1_pivot fixRows cpiCol fixPivot hp).2.2.2.1
    "2024 Aralık".data (.str "VELI".data) ?_ ?_ ?_
  · with_unfolding_all decide
  · with_unfolding_all decide
  · with_unfolding_all decide

end SalesReport
